import Mathlib

/-!
Shallow embedding of the CryptoETF index-fund engine (`index_fund.py`,
`binance_client.py`) and proofs about the claims of its specification.

USD amounts and quantities are modelled as rationals (`ℚ`); the Python
floats carry exact decimal values at every input used here.  A portfolio
is a list of `(symbol, usd_value)` pairs, as in the Python code.
-/

abbrev Portfolio := List (String × ℚ)

/-- Model of `IndexFund.getTotalWorthPortfolio`: sum of the values of a portfolio. -/
def getTotalWorthPortfolio (portfolio : Portfolio) : ℚ :=
  (portfolio.map Prod.snd).sum

/-! ## Trade executor (`IndexFund.__executeTrades`, index_fund.py lines 45-51)

A trade is `((symbol, base_currency), quantity_in_base)`.  `tradeRet`
models the exchange primitive (`sellOrder` / `buyOrder`): it maps the
trade's pair and quantity to the realized returned amount.  The Python
code computes `self_trades` but then sums `non_self_trades` into
`self_trades_amount`; the embedding reproduces that faithfully. -/

abbrev Trade := (String × String) × ℚ

def executeTrades (trades : List Trade) (tradeRet : String × String → ℚ → ℚ) : ℚ :=
  let _self_trades := trades.filter (fun x => decide (x.1.1 = x.1.2))
  let non_self_trades := trades.filter (fun x => decide (x.1.1 ≠ x.1.2))
  let self_trades_amount := (non_self_trades.map Prod.snd).sum
  let non_self_trades_amount :=
    (non_self_trades.map (fun x => tradeRet x.1 x.2)).sum
  self_trades_amount + non_self_trades_amount

/-- The value the specification describes for the executor: self-trade
amounts plus the realized returns of the real (non-self) trades. -/
def executeTradesSpec (trades : List Trade) (tradeRet : String × String → ℚ → ℚ) : ℚ :=
  ((trades.filter (fun x => decide (x.1.1 = x.1.2))).map Prod.snd).sum +
    ((trades.filter (fun x => decide (x.1.1 ≠ x.1.2))).map (fun x => tradeRet x.1 x.2)).sum

/-! ## Investment rescaling (`IndexFund.__updatePortfolio`, lines 151-154) -/

def rescaleInvest (invest_trades : List Trade) (liquidated_amount : ℚ) : List Trade :=
  let amount_required := (invest_trades.map Prod.snd).sum
  invest_trades.map (fun x => (x.1, x.2 / amount_required * liquidated_amount))

/-! ## Weight normalizer (`IndexFund.reinvest`, line 267) -/

def normalizeWeights (weight : List ℚ) : List ℚ :=
  weight.map (fun x => x / weight.sum)

/-! ## Rebalance cooldown (`index_fund.py` lines 15-33)

`time.time()` returns seconds; `getTimeSec` multiplies by `1000 * 1000`
and rounds, so it actually yields microseconds.  `__waitTimeout` loops
(sleeping) while `getTimeSec() - last_time < TIMEOUT_BW_CALLS`.
`last_time` is set to `0` in `IndexFund.__init__` and is never assigned
again anywhere in the class. -/

def getTimeSec (t : ℚ) : ℤ :=
  round (t * 1000 * 1000)

def TIMEOUT_BW_CALLS : ℤ := 30

/-- `True` iff `__waitTimeout` would keep sleeping at wall-clock reading
`now` given the stored `last_time`. -/
def waitNeeded (now last_time : ℤ) : Bool :=
  decide (now - last_time < TIMEOUT_BW_CALLS)

/-- The `last_time` field as every reconciliation call observes it: the
constructor sets it to `0` and no method ever updates it. -/
def lastTimeField : ℤ := 0

/-! ## Leverage entry guard (`IndexFund.leverage`, lines 336-338)

Python: `if portfolio is not None or (portfolio and len(portfolio) > 0)`.
`none` models `portfolio=None`; `some l` a list argument. -/

def leverageGuardRaises (portfolio : Option Portfolio) : Bool :=
  decide (portfolio ≠ none) ||
    (match portfolio with
     | none => false
     | some l => decide (l ≠ []) && decide (0 < l.length))

/-! ## Base-currency selector (`BinanceClient.findBaseCurrency`,
binance_client.py lines 248-268)

`allPairs` is the list of tradeable pair names (keys of `all_pairs`),
`baseSymbols` the ranked candidate list. -/

def missingCount (allPairs : List String) (syms : List String) (base : String) : Nat :=
  (syms.filter (fun x => decide ((x ++ base) ∉ allPairs) && decide (x ≠ base))).length

/-- The candidate loop of `findBaseCurrency`: running minimum `m`
(initially `len(portfolio)`) and best candidate (initially `None`),
updated only on a strict decrease. -/
def fbcLoop (allPairs : List String) (syms : List String) :
    List String → Nat → Option String → Option String
  | [], _, best => best
  | b :: bs, m, best =>
    if missingCount allPairs syms b < m then
      fbcLoop allPairs syms bs (missingCount allPairs syms b) (some b)
    else
      fbcLoop allPairs syms bs m best

/-- The `best_base_currency` component of `findBaseCurrency`'s result. -/
def findBaseCurrencySel (allPairs baseSymbols : List String) (portfolio : Portfolio) :
    Option String :=
  fbcLoop allPairs (portfolio.map Prod.fst) baseSymbols (portfolio.map Prod.fst).length none

/-- The full `(best_base_currency, missing_currencies)` return value.
When `best_base_currency` is `None` the Python code evaluates
`x + None` for each portfolio symbol `x`, i.e. it raises a `TypeError`
as soon as the portfolio is non-empty; no claim evaluates that branch on
a non-empty portfolio, so it is modelled as the empty filter result. -/
def findBaseCurrencyResult (allPairs baseSymbols : List String) (portfolio : Portfolio) :
    Option String × List String :=
  let syms := portfolio.map Prod.fst
  let best := fbcLoop allPairs syms baseSymbols syms.length none
  (best,
   match best with
   | some b => syms.filter (fun x => decide ((x ++ b) ∉ allPairs) && decide (x ≠ b))
   | none => [])

/-- The minimum of the missing-counts of the candidates, seeded with `m`. -/
def runningMin (allPairs syms : List String) (bs : List String) (m : Nat) : Nat :=
  (bs.map (missingCount allPairs syms)).foldr min m

/-! ## Portfolio differ (`IndexFund.__updatePortfolio`, lines 108-138)

The Python code appends dummy zero-valued entries for target symbols
missing from current, collects current entries whose symbol is absent
from the target into the liquidation list, removes them from current,
sorts both sides by symbol (`sorted(..., key=lambda x: x[0])`), zips
them and takes `target[1] - current[1]`, then routes negative deltas
(negated) to the liquidation list and positive deltas to the
investment list. -/

def symLE (a b : String × ℚ) : Prop := a.1 ≤ b.1

instance : DecidableRel symLE := fun a b => inferInstanceAs (Decidable (a.1 ≤ b.1))

instance : IsTotal (String × ℚ) symLE := ⟨fun a b => le_total a.1 b.1⟩

instance : IsTrans (String × ℚ) symLE := ⟨fun _ _ _ => le_trans⟩

def sortBySymbol (l : Portfolio) : Portfolio := l.insertionSort symLE

/-- The dummy entries of line 112: `(x[0], 0.0)` for target symbols not
present in current. -/
def dummyEntries (target current : Portfolio) : Portfolio :=
  (target.filter (fun x => decide (x.1 ∉ current.map Prod.fst))).map (fun x => (x.1, (0 : ℚ)))

/-- Line 112: current portfolio with the dummy entries appended. -/
def currentPlusDummies (target current : Portfolio) : Portfolio :=
  current ++ dummyEntries target current

/-- Lines 116-117: current entries whose symbol is absent from the
target, collected for liquidation at full current value. -/
def liquidateAbsent (target current : Portfolio) : Portfolio :=
  (currentPlusDummies target current).filter
    (fun x => decide (x.1 ∉ target.map Prod.fst))

/-- Lines 120-122: current entries (tuple-compared) not in the
liquidation list. -/
def currentAligned (target current : Portfolio) : Portfolio :=
  (currentPlusDummies target current).filter
    (fun x => decide (x ∉ liquidateAbsent target current))

/-- Lines 124-131: sort both sides by symbol, zip and diff. -/
def diffEntries (target current : Portfolio) : Portfolio :=
  ((sortBySymbol target).zip (sortBySymbol (currentAligned target current))).map
    (fun p => (p.1.1, p.1.2 - p.2.2))

/-- Lines 108-138 of `__updatePortfolio`: returns
`(liquidate_portfolio, invest_portfolio)`. -/
def diffPortfolios (target current : Portfolio) : Portfolio × Portfolio :=
  (liquidateAbsent target current ++
    ((diffEntries target current).filter (fun x => decide (x.2 < 0))).map
      (fun x => (x.1, -x.2)),
   (diffEntries target current).filter (fun x => decide (0 < x.2)))

/-! ## Liquidation target (`IndexFund.liquidate`, index_fund.py lines 310-311)

The code builds `[(self.exchange.findBaseCurrency(current_portfolio),
total_value)]`, so the first component of the single entry is the whole
`(best_base_currency, missing_currencies)` pair, not a symbol string. -/

def liquidateTargetPortfolio (allPairs baseSymbols : List String) (current : Portfolio) :
    List ((Option String × List String) × ℚ) :=
  [(findBaseCurrencyResult allPairs baseSymbols current, getTotalWorthPortfolio current)]

/-! ## Exchange-call traces for `reinvest` and `leverage`

To reason about *when* usage errors are raised relative to exchange
calls, the entry points are modelled as functions returning the list of
Exchange Capability calls performed before the function's outcome,
paired with the outcome (`Except` error or normal result). -/

inductive ExCall
  | getBalance
  | getLeveragedCurrencies
  | getBullSymbol
  | sellOrder
  | buyOrder
  deriving DecidableEq

/-- Model of `IndexFund.__createPortfolioFromSource` (lines 173-190).  Line 174
fetches the current portfolio from the exchange (`getBalanceUsd`) — the
one exchange call; the rest filters and validates locally.  The Python
loop raises on the first symbol whose requested amount is not matched
by exactly one wallet entry with at least that amount. -/
def createPortfolioFromSource (balance : Portfolio) (source_currencies : List String)
    (source_amount : List ℚ) : List ExCall × Except String Portfolio :=
  if 0 < source_currencies.length then
    if 0 < source_amount.length then
      if source_amount.length ≠ source_currencies.length then
        ([ExCall.getBalance], .error "assert len(source_amount) == len(source_currencies)")
      else if (source_currencies.zip source_amount).all
          (fun p => ((balance.filter (fun x => decide (x.1 ∈ source_currencies))).filter
            (fun x => decide (x.1 = p.1) && decide (p.2 ≤ x.2))).length = 1) then
        ([ExCall.getBalance], .ok (source_currencies.zip source_amount))
      else
        ([ExCall.getBalance], .error "Given base amount exceeds the amount in wallet")
    else
      ([ExCall.getBalance], .ok (balance.filter (fun x => decide (x.1 ∈ source_currencies))))
  else
    ([ExCall.getBalance], .ok balance)

/-- Model of `IndexFund.reinvest` lines 238-272, after the current portfolio has
been fetched: filtering, weight normalization, the length check, and
the construction of the weighted target portfolio.  Returns `none` for
the "nothing to do" early returns, and the `(target_portfolio,
current_portfolio)` pair handed to `__updatePortfolio` otherwise. -/
def reinvestAfterBalance (cp0 : Portfolio) (portfolio : List String)
    (not_invest_list do_not_alter : List String) (weight : Option (List ℚ)) :
    Except String (Option (Portfolio × Portfolio)) :=
  let cp := cp0.filter (fun x => decide (x.1 ∉ do_not_alter))
  let total := getTotalWorthPortfolio cp
  if cp.length = 0 ∨ total = 0 then .ok none
  else
    let pf2 := (portfolio.filter (fun x => decide (x ∉ not_invest_list))).filter
      (fun x => decide (x ∉ do_not_alter))
    if pf2.length = 0 then .ok none
    else
      let w0 := match weight with
        | none => List.replicate pf2.length (1 : ℚ)
        | some w => w
      if w0.sum = 0 then .error "ZeroDivisionError"
      else
        let w := normalizeWeights w0
        if w.length ≠ pf2.length then .error "Length of weights and portfolio is not equal"
        else .ok (some ((pf2.zip w).map (fun p => (p.1, total * p.2)), cp))

/-- Model of `IndexFund.reinvest` (lines 219-279) up to the hand-off to
`__updatePortfolio`, with its exchange-call trace.  `portfolio` is the
symbol list (for a `(symbol, value)`-pair argument the code keeps only
the symbols, see `reinvestFromPairs`). -/
def reinvestPre (balance : Portfolio) (portfolio : List String)
    (source_currencies : List String) (source_amount : List ℚ)
    (not_invest_list do_not_alter : List String) (weight : Option (List ℚ)) :
    List ExCall × Except String (Option (Portfolio × Portfolio)) :=
  if portfolio.length = 0 then ([], .error "New portfolio not provided.")
  else
    ((createPortfolioFromSource balance source_currencies source_amount).1,
      match (createPortfolioFromSource balance source_currencies source_amount).2 with
      | .error e => .error e
      | .ok cp0 => reinvestAfterBalance cp0 portfolio not_invest_list do_not_alter weight)

/-- Lines 250-252: a `(symbol, value)`-pair target portfolio argument is
reduced to its symbols; the attached values are discarded. -/
def reinvestFromPairs (balance : Portfolio) (portfolio : Portfolio)
    (source_currencies : List String) (source_amount : List ℚ)
    (not_invest_list do_not_alter : List String) (weight : Option (List ℚ)) :
    List ExCall × Except String (Option (Portfolio × Portfolio)) :=
  reinvestPre balance (portfolio.map Prod.fst) source_currencies source_amount
    not_invest_list do_not_alter weight

/-- Model of `IndexFund.leverage` (lines 326-365) in `bull` mode, up to the
filter-combination check of line 356, with its exchange-call trace:
the guard of line 337, then `__createPortfolioFromSource` (balance
fetch), `getLeveragedCurrencies` (line 346), one `getBullSymbol` call
per remaining entry (line 350), and only then the
`not_invest_list`/`do_not_alter` rejection (line 356). -/
def leverageBull (balance : Portfolio) (portfolio : Option Portfolio)
    (source_currencies : List String) (source_amount : List ℚ)
    (not_invest_list do_not_alter : List String) (leveraged_currencies : List String) :
    List ExCall × Except String Unit :=
  if leverageGuardRaises portfolio then
    ([], .error "Portfolio not accepted with bear/bull options.")
  else
    ((createPortfolioFromSource balance source_currencies source_amount).1 ++
      (match (createPortfolioFromSource balance source_currencies source_amount).2 with
       | .error _ => []
       | .ok pf0 => ExCall.getLeveragedCurrencies ::
           (pf0.filter (fun x => decide (x.1 ∈ leveraged_currencies))).map
             (fun _ => ExCall.getBullSymbol)),
     match (createPortfolioFromSource balance source_currencies source_amount).2 with
     | .error e => .error e
     | .ok _ =>
       if 0 < not_invest_list.length ∨ 0 < do_not_alter.length then
         .error "not_invest_list or do_not_alter not supported in leveraging."
       else .ok ())

/-- C1: the claim says the realized liquidity pool returned by the trade
executor equals the sum of the self-trade amounts plus the realized
returns of the real trades.  At the failing input
`[(("USDT","USDT"), 5), (("BTC","USDT"), 10)]` with the sell primitive
realizing `quant - 1`, the code returns `19` (it sums the *planned*
amounts of the non-self trades into `self_trades_amount`, dropping the
self-trade amount `5` and double-counting the planned `10`), while the
specified value is `5 + 9 = 14`. -/
theorem C1_executor_pool_failing_input :
    executeTrades [(("USDT", "USDT"), 5), (("BTC", "USDT"), 10)] (fun _ q => q - 1) = 19 ∧
    executeTradesSpec [(("USDT", "USDT"), 5), (("BTC", "USDT"), 10)] (fun _ q => q - 1) = 14 ∧
    (19 : ℚ) ≠ 14 := by
  refine ⟨?_, ?_, by norm_num⟩ <;>
    · simp [executeTrades, executeTradesSpec]
      norm_num

/-- C2: for every non-empty investment trade list with positive planned
sum and every realized liquidation pool (any sell-return function,
covering every combination of below-minimum skips returning zero), the
rescaled investment amounts sum to no more than the realized pool. -/
theorem C2_rescaled_invest_within_budget
    (invest_trades liquidate_trades : List Trade)
    (sellRet : String × String → ℚ → ℚ)
    (h : 0 < (invest_trades.map Prod.snd).sum) :
    ((rescaleInvest invest_trades (executeTrades liquidate_trades sellRet)).map Prod.snd).sum ≤
      executeTrades liquidate_trades sellRet := by
  set L := executeTrades liquidate_trades sellRet with hL
  set S := (invest_trades.map Prod.snd).sum with hS
  have hS0 : S ≠ 0 := ne_of_gt h
  have key : ((rescaleInvest invest_trades L).map Prod.snd).sum = L := by
    unfold rescaleInvest
    rw [← hS]
    simp only [List.map_map]
    have hfun : (Prod.snd ∘ fun x : Trade => (x.1, x.2 / S * L)) =
        fun x : Trade => x.2 * (S⁻¹ * L) := by
      funext x
      simp [div_eq_mul_inv, mul_assoc]
    rw [hfun, List.sum_map_mul_right, ← hS, ← mul_assoc, mul_inv_cancel₀ hS0, one_mul]
  exact le_of_eq key

theorem C2_rescaled_invest_within_budget_witness :
    ((rescaleInvest [(("BTC", "USDT"), 2)] (executeTrades [] (fun _ _ => 0))).map
      Prod.snd).sum ≤ executeTrades [] (fun _ _ => 0) :=
  C2_rescaled_invest_within_budget [(("BTC", "USDT"), 2)] [] (fun _ _ => 0) (by norm_num)

theorem normalizeWeights_sum_eq_one (weight : List ℚ) (hS : weight.sum ≠ 0) :
    (normalizeWeights weight).sum = 1 := by
  unfold normalizeWeights
  simp only [div_eq_mul_inv]
  rw [List.sum_map_mul_right]
  simp only [List.map_id']
  exact mul_inv_cancel₀ hS

/-- C8: for every weight vector of non-negative entries with positive
sum, the normalized weights sum to exactly `1`. -/
theorem C8_normalized_weights_sum_to_one (weight : List ℚ)
    (hnn : ∀ x ∈ weight, 0 ≤ x) (hpos : 0 < weight.sum) :
    (normalizeWeights weight).sum = 1 :=
  normalizeWeights_sum_eq_one weight (ne_of_gt hpos)

theorem C8_normalized_weights_sum_to_one_witness :
    (normalizeWeights [1, 1]).sum = 1 :=
  C8_normalized_weights_sum_to_one [1, 1] (by norm_num) (by norm_num)

/-- C9: the leverage guard `portfolio is not None or (portfolio and
len(portfolio) > 0)` raises exactly when the portfolio argument is not
`None` — including for the empty list. -/
theorem C9_leverage_guard_rejects_non_none (portfolio : Option Portfolio) :
    leverageGuardRaises portfolio = true ↔ portfolio ≠ none := by
  cases portfolio <;> simp [leverageGuardRaises]

theorem C9_leverage_guard_rejects_non_none_witness :
    leverageGuardRaises (some []) = true :=
  (C9_leverage_guard_rejects_non_none (some [])).mpr (by simp)

/-- C4: the claim says each reconciliation call blocks until 30 seconds
have elapsed since the previous run.  In the code `getTimeSec` returns
microseconds (`round(time.time() * 1000 * 1000)`) compared against the
constant `30` (commented `# sec`), and `last_time` stays `0` forever.
One second after the previous run (previous run at wall time `0`
seconds, current call at `1` second) the wait condition is already
false — with the stored `last_time` field, and even if `last_time` had
been updated to the previous run's clock reading — although fewer than
30 seconds have elapsed. -/
theorem C4_cooldown_gate_failing_input :
    waitNeeded (getTimeSec 1) lastTimeField = false ∧
    waitNeeded (getTimeSec 1) (getTimeSec 0) = false ∧
    (1 : ℚ) - 0 < 30 := by
  refine ⟨?_, ?_, by norm_num⟩ <;>
    · simp [waitNeeded, getTimeSec, lastTimeField, TIMEOUT_BW_CALLS, round_eq]
      norm_num

/-! ### Lemmas about the selector's running minimum -/

theorem runningMin_cons (ap syms : List String) (b : String) (bs : List String) (m : Nat) :
    runningMin ap syms (b :: bs) m = min (missingCount ap syms b) (runningMin ap syms bs m) := rfl

theorem runningMin_le_init (ap syms bs : List String) (m : Nat) :
    runningMin ap syms bs m ≤ m := by
  induction bs with
  | nil => exact le_refl m
  | cons b bs ih => exact le_trans (min_le_right _ _) ih

theorem runningMin_le_mem (ap syms : List String) {bs : List String} {b : String}
    (hb : b ∈ bs) (m : Nat) : runningMin ap syms bs m ≤ missingCount ap syms b := by
  induction bs with
  | nil => cases hb
  | cons c cs ih =>
    rcases List.mem_cons.mp hb with h | h
    · subst h; exact min_le_left _ _
    · exact le_trans (min_le_right _ _) (ih h)

theorem runningMin_reseed (ap syms : List String) (bs : List String) {k m : Nat}
    (hkm : k ≤ m) : min k (runningMin ap syms bs m) = runningMin ap syms bs k := by
  induction bs with
  | nil => exact min_eq_left hkm
  | cons c cs ih =>
    rw [runningMin_cons, runningMin_cons, ← ih, min_left_comm]

theorem runningMin_of_all_ge (ap syms : List String) {bs : List String} {k : Nat}
    (h : ∀ b ∈ bs, k ≤ missingCount ap syms b) : runningMin ap syms bs k = k := by
  induction bs with
  | nil => rfl
  | cons c cs ih =>
    rw [runningMin_cons, ih (fun b hb => h b (List.mem_cons_of_mem _ hb)),
      min_eq_right (h c (List.mem_cons_self _ _))]

theorem fbcLoop_no_update (ap syms : List String) {bs : List String} {m : Nat}
    (best : Option String) (h : ∀ b ∈ bs, ¬ missingCount ap syms b < m) :
    fbcLoop ap syms bs m best = best := by
  induction bs with
  | nil => rfl
  | cons c cs ih =>
    rw [fbcLoop, if_neg (h c (List.mem_cons_self _ _))]
    exact ih (fun b hb => h b (List.mem_cons_of_mem _ hb))

/-- The selector loop returns the first candidate achieving the overall
minimum missing-count, whenever some candidate beats the seed. -/
theorem fbcLoop_first_argmin (ap syms : List String) :
    ∀ (bs : List String) (m : Nat) (best : Option String),
      (∃ b ∈ bs, missingCount ap syms b < m) →
      fbcLoop ap syms bs m best =
        bs.find? (fun b => decide (missingCount ap syms b = runningMin ap syms bs m)) := by
  intro bs
  induction bs with
  | nil => rintro m best ⟨b, hb, -⟩; cases hb
  | cons c cs ih =>
    intro m best h
    by_cases hc : missingCount ap syms c < m
    · rw [fbcLoop, if_pos hc]
      have hmin : runningMin ap syms (c :: cs) m =
          runningMin ap syms cs (missingCount ap syms c) := by
        rw [runningMin_cons, runningMin_reseed ap syms cs (le_of_lt hc)]
      by_cases hex : ∃ b ∈ cs, missingCount ap syms b < missingCount ap syms c
      · rw [ih _ (some c) hex, hmin]
        rw [List.find?_cons]
        have hne : missingCount ap syms c ≠ runningMin ap syms cs (missingCount ap syms c) := by
          obtain ⟨b, hb, hlt⟩ := hex
          have := lt_of_le_of_lt (runningMin_le_mem ap syms hb (missingCount ap syms c)) hlt
          omega
        simp [hne]
      · push_neg at hex
        have hall : ∀ b ∈ cs, missingCount ap syms c ≤ missingCount ap syms b := hex
        rw [fbcLoop_no_update ap syms (some c) (fun b hb => not_lt.mpr (hall b hb))]
        have hmin2 : runningMin ap syms (c :: cs) m = missingCount ap syms c := by
          rw [hmin, runningMin_of_all_ge ap syms hall]
        rw [List.find?_cons, hmin2]
        simp
    · rw [fbcLoop, if_neg hc]
      obtain ⟨b, hb, hlt⟩ := h
      have hbcs : b ∈ cs := by
        rcases List.mem_cons.mp hb with rfl | h'
        · exact absurd hlt hc
        · exact h'
      have hex : ∃ b ∈ cs, missingCount ap syms b < m := ⟨b, hbcs, hlt⟩
      rw [ih _ best hex]
      have hR : runningMin ap syms (c :: cs) m = runningMin ap syms cs m := by
        rw [runningMin_cons, min_eq_right]
        exact le_trans (runningMin_le_mem ap syms hbcs m)
          (le_trans (le_of_lt hlt) (not_lt.mp hc))
      have hne : missingCount ap syms c ≠ runningMin ap syms cs m := by
        have h1 := runningMin_le_mem ap syms hbcs m
        have h2 := not_lt.mp hc
        omega
      rw [List.find?_cons, hR]
      simp [hne]

/-- C6 counterexample: with no tradeable pairs at all, every candidate
misses the single symbol, so no candidate's count is strictly below the
seed `len(portfolio)`; the selector returns `None` even though the
first candidate `A` minimizes the count, contradicting the claim that
the minimizing candidate is always returned. -/
theorem C6_selector_counterexample :
    findBaseCurrencySel [] ["A", "B"] [("X", 1)] = none ∧
    ∀ b ∈ ["A", "B"], missingCount [] ["X"] "A" ≤ missingCount [] ["X"] b := by
  constructor
  · rfl
  · decide

/-- C6 amended: whenever at least one candidate's missing-count is
strictly below the number of symbols, the selector returns the first
candidate (in rank order) achieving the minimal missing-count — the
minimizer, first candidate winning ties; otherwise it returns `None`. -/
theorem C6_selector_first_argmin (allPairs baseSymbols : List String) (portfolio : Portfolio)
    (h : ∃ b ∈ baseSymbols,
      missingCount allPairs (portfolio.map Prod.fst) b < (portfolio.map Prod.fst).length) :
    findBaseCurrencySel allPairs baseSymbols portfolio =
      baseSymbols.find? (fun b => decide (missingCount allPairs (portfolio.map Prod.fst) b =
        runningMin allPairs (portfolio.map Prod.fst) baseSymbols
          (portfolio.map Prod.fst).length)) :=
  fbcLoop_first_argmin allPairs (portfolio.map Prod.fst) baseSymbols
    (portfolio.map Prod.fst).length none h

/-- The tie-break scenario of the claim: candidates `A` and `B` both
cover 100% of the symbols, and `A` (first-ranked) is chosen. -/
theorem C6_selector_first_argmin_witness :
    findBaseCurrencySel ["XA", "XB"] ["A", "B"] [("X", 1)] = some "A" := by
  have h := C6_selector_first_argmin ["XA", "XB"] ["A", "B"] [("X", 1)]
    ⟨"A", by decide, by decide⟩
  rw [h]
  rfl

/-- C3: the claim says `liquidate()` on the full current holding returns
a single entry whose symbol is the base-currency string (`"USDT"`).  The
code instead stores the whole `findBaseCurrency` result pair in the
symbol slot: at current portfolio `[("BTC",1000), ("ETH",500)]` with
pairs `BTCUSDT`, `ETHUSDT` and candidate list `["USDT"]`, the built
target portfolio is `[((some "USDT", []), 1500)]` — the entry's first
component is the tuple `("USDT", [])`, not the string `"USDT"`, so the
downstream `getSupportedPortfolio` (which concatenates the symbol with a
currency string) fails and the repository's own test expectation
`ret_portfolio[0][0] == 'USDT'` cannot hold. -/
theorem C3_liquidate_target_failing_input :
    liquidateTargetPortfolio ["BTCUSDT", "ETHUSDT"] ["USDT"] [("BTC", 1000), ("ETH", 500)] =
      [((some "USDT", []), 1500)] := by
  simp [liquidateTargetPortfolio, findBaseCurrencyResult, fbcLoop, missingCount,
    getTotalWorthPortfolio]
  norm_num

/-! ### Lemmas for the differ -/

theorem snd_eq_of_nodup_fst {l : Portfolio} (h : (l.map Prod.fst).Nodup)
    {s : String} {a b : ℚ} (ha : (s, a) ∈ l) (hb : (s, b) ∈ l) : a = b := by
  induction l with
  | nil => cases ha
  | cons x xs ih =>
    simp only [List.map_cons, List.nodup_cons] at h
    rcases List.mem_cons.mp ha with h1 | h1 <;> rcases List.mem_cons.mp hb with h2 | h2
    · exact (Prod.ext_iff.mp (h1.trans h2.symm)).2
    · rw [← h1] at h
      exact absurd (List.mem_map_of_mem Prod.fst h2) h.1
    · rw [← h2] at h
      exact absurd (List.mem_map_of_mem Prod.fst h1) h.1
    · exact ih h.2 h1 h2

/-- Zipping two portfolios with equal, duplicate-free symbol sequences
and taking value differences yields the entry `(s, tv - cv)` for every
symbol `s` valued `tv` on the left and `cv` on the right. -/
theorem mem_zip_diff {A B : Portfolio} (hfst : A.map Prod.fst = B.map Prod.fst)
    (hnd : (A.map Prod.fst).Nodup) {s : String} {tv cv : ℚ}
    (hA : (s, tv) ∈ A) (hB : (s, cv) ∈ B) :
    (s, tv - cv) ∈ (A.zip B).map (fun p => (p.1.1, p.1.2 - p.2.2)) := by
  induction A generalizing B with
  | nil => cases hA
  | cons a A2 ih =>
    cases B with
    | nil => simp at hfst
    | cons b B2 =>
      simp only [List.map_cons, List.cons.injEq] at hfst
      obtain ⟨hab, htl⟩ := hfst
      simp only [List.map_cons, List.nodup_cons] at hnd
      rw [List.zip_cons_cons, List.map_cons]
      rcases List.mem_cons.mp hA with h1 | h1
      · rcases List.mem_cons.mp hB with h2 | h2
        · rw [← h1, ← h2]
          exact List.mem_cons_self _ _
        · exfalso
          have hs : s ∈ A2.map Prod.fst := by
            rw [htl]
            exact List.mem_map_of_mem Prod.fst h2
          rw [← h1] at hnd
          exact hnd.1 hs
      · rcases List.mem_cons.mp hB with h2 | h2
        · exfalso
          have hs : s ∈ A2.map Prod.fst := List.mem_map_of_mem Prod.fst h1
          have : a.1 = s := by rw [hab, ← h2]
          rw [← this] at hs
          exact hnd.1 hs
        · exact List.mem_cons_of_mem _ (ih htl hnd.2 h1 h2)

theorem mem_currentAligned {target current : Portfolio} {x : String × ℚ} :
    x ∈ currentAligned target current ↔
      x ∈ currentPlusDummies target current ∧ x.1 ∈ target.map Prod.fst := by
  simp only [currentAligned, liquidateAbsent, List.mem_filter, decide_eq_true_eq,
    not_and, not_not]
  tauto

theorem map_fst_dummyEntries (target current : Portfolio) :
    (dummyEntries target current).map Prod.fst =
      (target.filter (fun x => decide (x.1 ∉ current.map Prod.fst))).map Prod.fst := by
  rw [dummyEntries, List.map_map]
  rfl

theorem currentPlusDummies_fst_nodup {target current : Portfolio}
    (hc : (current.map Prod.fst).Nodup) (ht : (target.map Prod.fst).Nodup) :
    ((currentPlusDummies target current).map Prod.fst).Nodup := by
  rw [currentPlusDummies, List.map_append, List.nodup_append]
  refine ⟨hc, ?_, ?_⟩
  · rw [map_fst_dummyEntries]
    exact List.Nodup.sublist (List.Sublist.map Prod.fst (List.filter_sublist target)) ht
  · intro a ha hb
    rw [map_fst_dummyEntries] at hb
    obtain ⟨y, hy, hya⟩ := List.mem_map.mp hb
    have := (List.mem_filter.mp hy).2
    rw [decide_eq_true_eq] at this
    rw [hya] at this
    exact this ha

theorem currentAligned_fst_perm {target current : Portfolio}
    (hc : (current.map Prod.fst).Nodup) (ht : (target.map Prod.fst).Nodup) :
    ((currentAligned target current).map Prod.fst).Perm (target.map Prod.fst) := by
  apply List.perm_of_nodup_nodup_toFinset_eq
  · exact List.Nodup.sublist
      (List.Sublist.map Prod.fst (List.filter_sublist _))
      (currentPlusDummies_fst_nodup hc ht)
  · exact ht
  · ext a
    simp only [List.mem_toFinset]
    constructor
    · intro ha
      obtain ⟨x, hx, hxa⟩ := List.mem_map.mp ha
      rw [← hxa]
      exact (mem_currentAligned.mp hx).2
    · intro ha
      obtain ⟨y, hy, hya⟩ := List.mem_map.mp ha
      by_cases hcur : a ∈ current.map Prod.fst
      · obtain ⟨x, hx, hxa⟩ := List.mem_map.mp hcur
        refine List.mem_map.mpr ⟨x, mem_currentAligned.mpr ⟨?_, ?_⟩, hxa⟩
        · exact List.mem_append_left _ hx
        · rw [hxa]; exact ha
      · refine List.mem_map.mpr ⟨(a, 0), mem_currentAligned.mpr ⟨?_, ha⟩, rfl⟩
        apply List.mem_append_right
        apply List.mem_map.mpr
        refine ⟨y, List.mem_filter.mpr ⟨hy, ?_⟩, ?_⟩
        · rw [decide_eq_true_eq, hya]
          exact hcur
        · rw [hya]

theorem sortBySymbol_map_fst_sorted (l : Portfolio) :
    ((sortBySymbol l).map Prod.fst).Sorted (· ≤ ·) := by
  have h : (sortBySymbol l).Sorted symLE := List.sorted_insertionSort symLE l
  exact List.pairwise_map.mpr h

theorem sortBySymbol_perm (l : Portfolio) : (sortBySymbol l).Perm l :=
  List.perm_insertionSort symLE l

/-- After the dummy-add and absent-symbol removal, the sorted current
and sorted target sides carry the same symbol sequence, so the zip of
line 130 aligns entries symbol by symbol. -/
theorem sorted_keys_eq {target current : Portfolio}
    (hc : (current.map Prod.fst).Nodup) (ht : (target.map Prod.fst).Nodup) :
    (sortBySymbol target).map Prod.fst =
      (sortBySymbol (currentAligned target current)).map Prod.fst := by
  apply List.eq_of_perm_of_sorted (r := fun a b : String => a ≤ b)
  · exact ((sortBySymbol_perm target).map Prod.fst).trans
      (((currentAligned_fst_perm hc ht).symm).trans
        ((sortBySymbol_perm _).map Prod.fst).symm)
  · exact sortBySymbol_map_fst_sorted target
  · exact sortBySymbol_map_fst_sorted _

/-- Every symbol present on both sides produces the diff entry
`(s, target_value - current_value)`. -/
theorem mem_diffEntries {target current : Portfolio}
    (hc : (current.map Prod.fst).Nodup) (ht : (target.map Prod.fst).Nodup)
    {s : String} {tv cv : ℚ} (htv : (s, tv) ∈ target) (hcv : (s, cv) ∈ current) :
    (s, tv - cv) ∈ diffEntries target current := by
  apply mem_zip_diff (sorted_keys_eq hc ht)
  · exact (((sortBySymbol_perm target).map Prod.fst).nodup_iff).mpr ht
  · exact (List.mem_insertionSort symLE).mpr htv
  · apply (List.mem_insertionSort symLE).mpr
    apply mem_currentAligned.mpr
    have hsT : s ∈ target.map Prod.fst := List.mem_map_of_mem Prod.fst htv
    exact ⟨List.mem_append_left _ hcv, hsT⟩

/-- C5: the differ sends every current symbol absent from the target to
the liquidation set at its full current value; for symbols on both
sides it computes `delta = target_value - current_value`, sending
`-delta` to the liquidation set when `delta < 0` and `delta` to the
investment set when `delta > 0`; and on
current `[("BTC",1000), ("ETH",500)]` versus target `[("BTC",750)]` it
produces liquidation entries `ETH 500` and `BTC 250` and no investment
entries. -/
theorem C5_differ_deltas (current target : Portfolio)
    (hc : (current.map Prod.fst).Nodup) (ht : (target.map Prod.fst).Nodup) :
    (∀ s v, (s, v) ∈ current → s ∉ target.map Prod.fst →
      (s, v) ∈ (diffPortfolios target current).1) ∧
    (∀ s tv cv, (s, tv) ∈ target → (s, cv) ∈ current →
      (tv - cv < 0 → (s, -(tv - cv)) ∈ (diffPortfolios target current).1) ∧
      (0 < tv - cv → (s, tv - cv) ∈ (diffPortfolios target current).2)) ∧
    diffPortfolios [("BTC", 750)] [("BTC", 1000), ("ETH", 500)] =
      ([("ETH", 500), ("BTC", 250)], []) := by
  refine ⟨?_, ?_, ?_⟩
  · intro s v hv hnot
    apply List.mem_append_left
    apply List.mem_filter.mpr
    refine ⟨List.mem_append_left _ hv, ?_⟩
    rw [decide_eq_true_eq]
    exact hnot
  · intro s tv cv htv hcv
    have hd := mem_diffEntries hc ht htv hcv
    constructor
    · intro hneg
      apply List.mem_append_right
      apply List.mem_map.mpr
      refine ⟨(s, tv - cv), List.mem_filter.mpr ⟨hd, ?_⟩, rfl⟩
      rw [decide_eq_true_eq]
      exact hneg
    · intro hpos
      apply List.mem_filter.mpr
      refine ⟨hd, ?_⟩
      rw [decide_eq_true_eq]
      exact hpos
  · simp [diffPortfolios, liquidateAbsent, currentAligned, currentPlusDummies,
      dummyEntries, diffEntries, sortBySymbol, List.insertionSort, List.orderedInsert,
      symLE]
    norm_num

/-! ### Usage errors versus exchange calls -/

theorem createPortfolioFromSource_calls (balance : Portfolio) (sc : List String)
    (sa : List ℚ) : (createPortfolioFromSource balance sc sa).1 = [ExCall.getBalance] := by
  unfold createPortfolioFromSource
  split_ifs <;> rfl

/-- C7 counterexample: the claim says every usage error is raised
before any exchange call.  Calling `reinvest` with a 2-symbol portfolio
and a caller-supplied weight list of length 1 raises the
length-mismatch usage error only *after* the exchange balance fetch of
`__createPortfolioFromSource`: the call trace at the error is
`[getBalance]`, not `[]`. -/
theorem C7_usage_error_counterexample :
    reinvestPre [("BTC", 100)] ["ETH", "LTC"] [] [] [] [] (some [1]) =
      ([ExCall.getBalance], .error "Length of weights and portfolio is not equal") ∧
    ([ExCall.getBalance] : List ExCall) ≠ [] := by
  constructor
  · norm_num [reinvestPre, createPortfolioFromSource, reinvestAfterBalance,
      normalizeWeights, getTotalWorthPortfolio]
  · simp

/-- C7 amended: the leverage explicit-portfolio usage error is raised
before any exchange call; the weight/portfolio length-mismatch error in
`reinvest` is raised only after the exchange balance fetch (its call
trace is exactly `[getBalance]`); and no usage error of the leverage
path is preceded by an order call — a `leverage('bull', ...)` call
never places a sell or buy order before reaching its
`not_invest_list`/`do_not_alter` rejection. -/
theorem C7_usage_errors_vs_exchange_calls :
    (∀ (balance : Portfolio) (p : Option Portfolio) (sc : List String) (sa : List ℚ)
        (nil dna lev : List String), p ≠ none →
      leverageBull balance p sc sa nil dna lev =
        ([], .error "Portfolio not accepted with bear/bull options.")) ∧
    (∀ (balance : Portfolio) (pf sc : List String) (sa : List ℚ) (nil dna : List String)
        (w : Option (List ℚ)),
      (reinvestPre balance pf sc sa nil dna w).2 =
          .error "Length of weights and portfolio is not equal" →
      (reinvestPre balance pf sc sa nil dna w).1 = [ExCall.getBalance]) ∧
    (∀ (balance : Portfolio) (sc : List String) (sa : List ℚ) (nil dna lev : List String),
      ExCall.sellOrder ∉ (leverageBull balance none sc sa nil dna lev).1 ∧
      ExCall.buyOrder ∉ (leverageBull balance none sc sa nil dna lev).1) ∧
    (∀ (balance : Portfolio) (sc : List String) (sa : List ℚ) (nil dna lev : List String),
      (leverageBull balance none sc sa nil dna lev).1.head? = some ExCall.getBalance) := by
  refine ⟨?_, ?_, ?_, ?_⟩
  · intro balance p sc sa nil dna lev hp
    cases p with
    | none => exact absurd rfl hp
    | some l =>
      rw [leverageBull, if_pos (by simp [leverageGuardRaises])]
  · intro balance pf sc sa nil dna w h
    by_cases h0 : pf.length = 0
    · rw [reinvestPre, if_pos h0] at h
      simp at h
    · rw [reinvestPre, if_neg h0]
      exact createPortfolioFromSource_calls balance sc sa
  · intro balance sc sa nil dna lev
    rw [leverageBull, if_neg (by simp [leverageGuardRaises])]
    rcases hcp : (createPortfolioFromSource balance sc sa).2 with e | pf0 <;>
      simp [hcp, createPortfolioFromSource_calls, List.mem_append, List.mem_map]
  · intro balance sc sa nil dna lev
    rw [leverageBull, if_neg (by simp [leverageGuardRaises])]
    rcases hcp : (createPortfolioFromSource balance sc sa).2 with e | pf0 <;>
      simp [hcp, createPortfolioFromSource_calls]

theorem C7_usage_errors_vs_exchange_calls_witness :
    leverageBull [] (some []) [] [] [] [] [] =
      ([], .error "Portfolio not accepted with bear/bull options.") ∧
    (reinvestPre [("BTC", 100)] ["ETH", "LTC"] [] [] [] [] (some [1])).1 =
      [ExCall.getBalance] ∧
    ExCall.sellOrder ∉ (leverageBull [] none [] [] [] [] []).1 :=
  ⟨C7_usage_errors_vs_exchange_calls.1 [] (some []) [] [] [] [] [] (by simp),
   C7_usage_errors_vs_exchange_calls.2.1 [("BTC", 100)] ["ETH", "LTC"] [] [] [] []
     (some [1]) (by norm_num [reinvestPre, createPortfolioFromSource,
       reinvestAfterBalance, normalizeWeights, getTotalWorthPortfolio]),
   (C7_usage_errors_vs_exchange_calls.2.2.1 [] [] [] [] [] []).1⟩

/-! ### The reinvest target portfolio's total -/

theorem targetPortfolio_total (pf2 : List String) (w : List ℚ) (total : ℚ)
    (hlen : w.length = pf2.length) :
    getTotalWorthPortfolio ((pf2.zip w).map (fun p => (p.1, total * p.2))) =
      total * w.sum := by
  unfold getTotalWorthPortfolio
  rw [List.map_map]
  have hfun : (Prod.snd ∘ fun p : String × ℚ => (p.1, total * p.2)) =
      fun p : String × ℚ => total * p.2 := rfl
  rw [hfun, List.sum_map_mul_left, List.map_snd_zip _ _ (le_of_eq hlen)]

/-- C10: in `reinvest`, the values attached to a pair-list target
portfolio argument are discarded (only symbols matter), and whenever
the call reaches `__updatePortfolio` the target portfolio's values sum
to exactly the total worth of the filtered current portfolio. -/
theorem C10_reinvest_target_total (balance portfolio : Portfolio)
    (sc : List String) (sa : List ℚ) (nil dna : List String) (w : Option (List ℚ))
    (calls : List ExCall) (tgt cp : Portfolio)
    (h : reinvestFromPairs balance portfolio sc sa nil dna w = (calls, .ok (some (tgt, cp)))) :
    (∀ f : String × ℚ → ℚ,
      reinvestFromPairs balance (portfolio.map (fun x => (x.1, f x))) sc sa nil dna w =
        reinvestFromPairs balance portfolio sc sa nil dna w) ∧
    getTotalWorthPortfolio tgt = getTotalWorthPortfolio cp := by
  constructor
  · intro f
    unfold reinvestFromPairs
    have hsyms : (portfolio.map (fun x => (x.1, f x))).map Prod.fst =
        portfolio.map Prod.fst := by
      rw [List.map_map]
      rfl
    rw [hsyms]
  · unfold reinvestFromPairs reinvestPre at h
    by_cases h0 : (portfolio.map Prod.fst).length = 0
    · rw [if_pos h0] at h
      simp at h
    · rw [if_neg h0] at h
      rcases hcp : (createPortfolioFromSource balance sc sa).2 with e | cp0 <;>
        simp only [hcp] at h
      · simp at h
      · rw [Prod.mk.injEq] at h
        obtain ⟨-, h2⟩ := h
        simp only [reinvestAfterBalance] at h2
        split_ifs at h2 with hA hB hC hD
        · exact absurd h2 (by simp)
        · exact absurd h2 (by simp)
        simp only [Except.ok.injEq, Option.some.injEq, Prod.mk.injEq] at h2
        obtain ⟨htgt, hcpv⟩ := h2
        rw [← htgt, ← hcpv]
        rw [targetPortfolio_total _ _ _ (not_ne_iff.mp hD),
          normalizeWeights_sum_eq_one _ hC, mul_one]

theorem C10_reinvest_target_total_witness :
    getTotalWorthPortfolio [("ETH", (100 : ℚ))] =
      getTotalWorthPortfolio [("BTC", (100 : ℚ))] :=
  (C10_reinvest_target_total [("BTC", 100)] [("ETH", 7)] [] [] [] [] none
    [ExCall.getBalance] [("ETH", 100)] [("BTC", 100)]
    (by norm_num [reinvestFromPairs, reinvestPre, createPortfolioFromSource,
      reinvestAfterBalance, normalizeWeights, getTotalWorthPortfolio])).2

theorem C5_differ_deltas_witness :
    ([("BTC", (1000 : ℚ)), ("ETH", 500)].map Prod.fst).Nodup ∧
    ([("BTC", (750 : ℚ))].map Prod.fst).Nodup ∧
    diffPortfolios [("BTC", 750)] [("BTC", 1000), ("ETH", 500)] =
      ([("ETH", 500), ("BTC", 250)], []) :=
  ⟨by simp, by simp,
    (C5_differ_deltas [("BTC", 1000), ("ETH", 500)] [("BTC", 750)]
      (by simp) (by simp)).2.2⟩

